import Mathlib

/-
Verification of the PDF toolkit pipelines (split, raster-compress, merge,
and the image-reduce resize path) against their natural-language
specification.  The definitions below are a shallow embedding of the
JavaScript source: the split pipeline from Components/SplitPdf.jsx, the
raster-compress pipeline from CompressPDF.jsx, the merge pipeline from
MergePDF.jsx, and the image resize from ImageReduce.jsx.  Page and byte
buffer contents are abstracted to the attributes the pipelines inspect;
the two third-party loaders (pdf-lib PDFDocument.load and pdfjs
getDocument) are modelled from the Document Decoder contract of the spec,
while every branch, guard, loop and state update is translated from the
repository code itself.
-/

namespace PdfToolkit

/-- One page of a source PDF.  The fields width and height are the native
viewport dimensions at scale 1.0 as reported by the renderer; corrupt
records whether rendering or structured copying of this page throws
(a corrupt page object, per the RenderError taxonomy). -/
structure Page where
  width : ℚ
  height : ℚ
  corrupt : Bool
deriving DecidableEq

/-- An input byte buffer, abstracted to the attributes the loaders
inspect: wellFormed is parseability of the byte stream, encrypted marks
an encrypted document, bypassable marks encryption that best-effort
ignore-encryption handling can open, passwordFree marks an encrypted
document that the rasterizing loader can open without a password, size
is the byte length, and pages is the page list exposed after a
successful parse. -/
structure PdfBytes where
  wellFormed : Bool
  encrypted : Bool
  bypassable : Bool
  passwordFree : Bool
  size : Nat
  pages : List Page
deriving DecidableEq

/-- Modelled from the spec (Document Decoder contract, section 4.1) and
the documented pdf-lib option: PDFDocument.load fails when the bytes are
not a well-formed document; an encrypted document loads only when the
caller passes the ignore-encryption option and the encryption is
bypassable by that best-effort handling. -/
def pdfLibLoad (b : PdfBytes) (ignoreEncryption : Bool) : Option (List Page) :=
  if b.wellFormed && (!b.encrypted || (ignoreEncryption && b.bypassable)) then
    some b.pages
  else
    none

/-- Modelled from the spec (Document Decoder contract, section 4.1) for
the rasterizing loader: pdfjs getDocument, called without a password,
fails on ill-formed bytes and on encrypted documents it cannot open
without a password. -/
def pdfjsGetDocument (b : PdfBytes) : Option (List Page) :=
  if b.wellFormed && (!b.encrypted || b.passwordFree) then some b.pages else none

def msgSplitFailed : String := "Failed to split PDF. Try a different file."

def msgCompressFailed : String :=
  "Compression failed. Try a different PDF or use server-side tools for heavier compression."

def msgNeedTwoFiles : String := "Select at least two PDF files to merge."

def msgTotalTooLarge : String := "Total file size too large. Try fewer or smaller PDFs."

def msgMergeFailed : String := "Failed to merge PDFs. Try re-uploading the files."

/-- The split loop of SplitPdf.jsx (lines 148 to 164): for each page
index a fresh document is created and the page is deep-copied into it;
copying a corrupt page throws, which aborts the loop.  The ok value is
the results array, one single-page output document per source page. -/
def splitLoop : List Page → Except Unit (List (List Page))
  | [] => Except.ok []
  | pg :: rest =>
    if pg.corrupt then Except.error ()
    else
      match splitLoop rest with
      | Except.error e => Except.error e
      | Except.ok outs => Except.ok ([pg] :: outs)

/-- The observable outcome of the split handler: splitPages is the React
state set only by setSplitPages on full success (it was reset to null
before the loop), error is the error banner. -/
structure SplitState where
  splitPages : Option (List (List Page))
  error : Option String
deriving DecidableEq

/-- The split function of SplitPdf.jsx (lines 128 to 175).  The load
passes the ignore-encryption option.  The whole loop sits in one try
block: on any failure the catch sets the error message and
setSplitPages is never reached, so the results built before the failure
are discarded and splitPages stays null. -/
def split (file : PdfBytes) : SplitState :=
  match pdfLibLoad file true with
  | none => ⟨none, some msgSplitFailed⟩
  | some pages =>
    match splitLoop pages with
    | Except.error _ => ⟨none, some msgSplitFailed⟩
    | Except.ok outs => ⟨some outs, none⟩

/-- The scale chosen in compressViaCanvas (CompressPDF.jsx line 587):
Math.min(1, maxWidth / viewport.width). -/
def renderScale (maxWidth : ℚ) (pg : Page) : ℚ :=
  min 1 (maxWidth / pg.width)

/-- One page of the rebuilt output document: the canvas pixel dimensions
(Math.round of the scaled viewport) that also size the embedded JPEG and
the page added around it, plus the JPEG encoder quality used. -/
structure RenderedPage where
  width : ℤ
  height : ℤ
  quality : ℚ
deriving DecidableEq

/-- Rasterization of one page (CompressPDF.jsx lines 583 to 618): the
canvas is sized to Math.round(scaledViewport.width) by
Math.round(scaledViewport.height), the render of a corrupt page throws,
and the JPEG is embedded on a page of exactly the image dimensions. -/
def renderPage (maxWidth quality : ℚ) (pg : Page) : Option RenderedPage :=
  if pg.corrupt then none
  else
    some ⟨round (pg.width * renderScale maxWidth pg),
          round (pg.height * renderScale maxWidth pg), quality⟩

/-- The page loop of compressViaCanvas (CompressPDF.jsx lines 579 to
623), processing pages p, p+1, ... with total pages recorded in each
progress update.  The first component is the list of setPageProgress
updates (current, total), emitted before each render, including the one
for a page whose render then throws; the second is the accumulated
output pages, none when some render threw. -/
def compressPagesFrom (maxWidth quality : ℚ) (total p : Nat) :
    List Page → List (Nat × Nat) × Option (List RenderedPage)
  | [] => ([], some [])
  | pg :: rest =>
    match renderPage maxWidth quality pg with
    | none => ([(p, total)], none)
    | some rp =>
      ((p, total) :: (compressPagesFrom maxWidth quality total (p + 1) rest).1,
       ((compressPagesFrom maxWidth quality total (p + 1) rest).2).map
         (fun tail => rp :: tail))

/-- The compressViaCanvas function (CompressPDF.jsx lines 569 to 629):
load with pdfjs, emit the initial progress update (0, numPages), then
run the page loop from page 1.  Returns none when the load itself
throws. -/
def compressViaCanvas (file : PdfBytes) (quality maxWidth : ℚ) :
    Option (List (Nat × Nat) × Option (List RenderedPage)) :=
  match pdfjsGetDocument file with
  | none => none
  | some pages =>
    some ((0, pages.length) :: (compressPagesFrom maxWidth quality pages.length 1 pages).1,
          (compressPagesFrom maxWidth quality pages.length 1 pages).2)

/-- The observable outcome of the compress handler: resultPages is the
content of the output blob exposed through resultUrl (null when the run
threw), errorMsg the error banner, trace the setPageProgress updates
emitted inside compressViaCanvas. -/
structure CompressState where
  resultPages : Option (List RenderedPage)
  errorMsg : Option String
  trace : List (Nat × Nat)
deriving DecidableEq

/-- The compress callback (CompressPDF.jsx lines 631 to 670): it calls
compressViaCanvas with quality 0.6 and maxWidth 1400; any throw from the
load or from a page render is caught, the error message is set, and
resultUrl stays null, so no partial document reaches the caller. -/
def compress (file : PdfBytes) : CompressState :=
  match compressViaCanvas file (3 / 5) 1400 with
  | none => ⟨none, some msgCompressFailed, []⟩
  | some (tr, none) => ⟨none, some msgCompressFailed, tr⟩
  | some (tr, some rs) => ⟨some rs, none, tr⟩

/-- The total size guard of MergePDF.jsx line 135. -/
def MAX_SIZE_BYTES : Nat := 200 * 1024 * 1024

/-- Copying every page of one loaded document (MergePDF.jsx lines 270 to
271): copyPages over all page indices, failing when a page is
corrupt. -/
def copyAllPages : List Page → Option (List Page)
  | [] => some []
  | pg :: rest =>
    if pg.corrupt then none
    else (copyAllPages rest).map (fun tail => pg :: tail)

/-- The merge loop of MergePDF.jsx (lines 265 to 272): each input in
caller order is loaded with PDFDocument.load without the
ignore-encryption option, all of its pages are copied, and they are
appended to the merged document; the first throw aborts the loop. -/
def mergeLoop : List PdfBytes → Option (List Page)
  | [] => some []
  | it :: rest =>
    match pdfLibLoad it false with
    | none => none
    | some pages =>
      match copyAllPages pages with
      | none => none
      | some copied => (mergeLoop rest).map (fun tail => copied ++ tail)

/-- The observable outcome of the merge handler: mergedPages is the
content of the blob exposed through mergedUrl (null when the run threw
or a guard fired), error the error banner. -/
structure MergeState where
  mergedPages : Option (List Page)
  error : Option String
deriving DecidableEq

/-- The mergePDFs function (MergePDF.jsx lines 243 to 290): guards for
at least two files and for the total size, then the merge loop inside
one try block; on any throw the catch sets the error and mergedUrl
stays null, so a partial merge is never emitted. -/
def mergePDFs (items : List PdfBytes) : MergeState :=
  if items.length < 2 then ⟨none, some msgNeedTwoFiles⟩
  else if MAX_SIZE_BYTES < (items.map PdfBytes.size).sum then
    ⟨none, some msgTotalTooLarge⟩
  else
    match mergeLoop items with
    | none => ⟨none, some msgMergeFailed⟩
    | some pages => ⟨some pages, none⟩

/-- A decoded source bitmap of the image-reduce path, with its pixel
dimensions as produced by createImageBitmap. -/
structure Bitmap where
  width : ℕ
  height : ℕ
deriving DecidableEq

/-- The clamping and scaling tail of handleUpload (ImageReduce.jsx lines
656 to 661): each target dimension is clamped to the bitmap dimension, a
single scale, the minimum of the width and height ratios, is applied to
both bitmap dimensions, rounded, and clamped below by 1; the result is
the output canvas size. -/
def resizeCore (W H : ℕ) (tW tH : ℤ) : ℤ × ℤ :=
  (max 1 (round ((W : ℚ) *
      min (((min tW (W : ℤ) : ℤ) : ℚ) / (W : ℚ)) (((min tH (H : ℤ) : ℤ) : ℚ) / (H : ℚ)))),
   max 1 (round ((H : ℚ) *
      min (((min tW (W : ℤ) : ℤ) : ℚ) / (W : ℚ)) (((min tH (H : ℤ) : ℤ) : ℚ) / (H : ℚ)))))

/-- The resize computation of handleUpload (ImageReduce.jsx lines 628 to
693): target dimensions come from the exam preset when one is selected,
otherwise from the parsed custom fields (an empty or non-numeric field
parses to the falsy value, modelled as 0); when either target is falsy
both default to half the bitmap dimensions, rounded; then the clamping
and scaling tail produces the output canvas dimensions. -/
def handleUpload (bmp : Bitmap) (cfg : Option (ℤ × ℤ)) (customWidth customHeight : ℤ) :
    ℤ × ℤ :=
  let targetW0 : ℤ := match cfg with | some c => c.1 | none => customWidth
  let targetH0 : ℤ := match cfg with | some c => c.2 | none => customHeight
  if targetW0 = 0 ∨ targetH0 = 0 then
    resizeCore bmp.width bmp.height
      (round ((bmp.width : ℚ) * (1 / 2))) (round ((bmp.height : ℚ) * (1 / 2)))
  else
    resizeCore bmp.width bmp.height targetW0 targetH0

/-- Modelled from the spec (Pipeline Orchestrator, cancellation clause):
an orchestrator that checks a cancellation flag between pages and, when
the flag is set at a page boundary, stops cleanly without emitting Done
or producing an output.  Used to compare the specified
cancellation-aware behaviour with the implemented loop. -/
def specCancelRun (cancel : Nat → Bool) (maxWidth quality : ℚ) (total p : Nat) :
    List Page → List (Nat × Nat) × Option (List RenderedPage)
  | [] => ([], some [])
  | pg :: rest =>
    if cancel p then ([], none)
    else
      match renderPage maxWidth quality pg with
      | none => ([(p, total)], none)
      | some rp =>
        ((p, total) :: (specCancelRun cancel maxWidth quality total (p + 1) rest).1,
         ((specCancelRun cancel maxWidth quality total (p + 1) rest).2).map
           (fun tail => rp :: tail))

/-- A healthy 600 by 800 page used by the concrete scenarios. -/
def okPage : Page := ⟨600, 800, false⟩

/-- A corrupt page whose render or copy throws. -/
def badPage : Page := ⟨600, 800, true⟩

/-- A 2000 px wide healthy page, the width of the concrete scenario of
the spec (section 8). -/
def page2000 : Page := ⟨2000, 2800, false⟩

/-- A well-formed unencrypted five page document whose third page is
corrupt. -/
def doc5 : PdfBytes := ⟨true, false, false, false, 5000, [okPage, okPage, badPage, okPage, okPage]⟩

/-- A well-formed unencrypted two page document whose second page is
corrupt. -/
def docBad2 : PdfBytes := ⟨true, false, false, false, 2000, [okPage, badPage]⟩

/-- A well-formed unencrypted two page healthy document. -/
def docA : PdfBytes := ⟨true, false, false, false, 1000, [okPage, page2000]⟩

/-- A healthy page distinguishable from the pages of docA. -/
def pageB : Page := ⟨300, 400, false⟩

/-- A well-formed unencrypted one page healthy document. -/
def docB : PdfBytes := ⟨true, false, false, false, 1500, [pageB]⟩

/-- An ill-formed byte buffer that no loader can open. -/
def brokenDoc : PdfBytes := ⟨false, false, false, false, 700, []⟩

/-- An encrypted document that best-effort ignore-encryption handling
can open. -/
def encDoc : PdfBytes := ⟨true, true, true, true, 1000, [okPage]⟩

/-- The page list of a healthy two page document. -/
def twoPages : List Page := [okPage, okPage]

/-- Rounding is monotone on the rationals. -/
theorem roundMono {x y : ℚ} (h : x ≤ y) : round x ≤ round y := by
  rw [round_eq, round_eq]
  exact Int.floor_mono (by linarith)

/-- The output of the clamping and scaling tail is at least 1 by 1 and
never exceeds the source bitmap dimensions. -/
theorem resizeCore_bounds (W H : ℕ) (tW tH : ℤ) (hW : 0 < W) (hH : 0 < H) :
    1 ≤ (resizeCore W H tW tH).1 ∧ 1 ≤ (resizeCore W H tW tH).2 ∧
    (resizeCore W H tW tH).1 ≤ (W : ℤ) ∧ (resizeCore W H tW tH).2 ≤ (H : ℤ) := by
  have hWq : (0 : ℚ) < (W : ℚ) := by exact_mod_cast hW
  have hHq : (0 : ℚ) < (H : ℚ) := by exact_mod_cast hH
  have keyW : ∀ r : ℚ, r ≤ ((min tW (W : ℤ) : ℤ) : ℚ) / (W : ℚ) →
      round ((W : ℚ) * r) ≤ (W : ℤ) := by
    intro r hr
    have hle : (W : ℚ) * r ≤ (W : ℚ) * (((min tW (W : ℤ) : ℤ) : ℚ) / (W : ℚ)) :=
      mul_le_mul_of_nonneg_left hr (le_of_lt hWq)
    have heq : (W : ℚ) * (((min tW (W : ℤ) : ℤ) : ℚ) / (W : ℚ)) =
        ((min tW (W : ℤ) : ℤ) : ℚ) := by
      field_simp
    have hfin : ((min tW (W : ℤ) : ℤ) : ℚ) ≤ (W : ℚ) := by
      exact_mod_cast min_le_right tW (W : ℤ)
    have h2 : (W : ℚ) * r ≤ (W : ℚ) := by
      calc (W : ℚ) * r ≤ _ := hle
        _ = _ := heq
        _ ≤ _ := hfin
    have h3 := roundMono h2
    rwa [round_natCast] at h3
  have keyH : ∀ r : ℚ, r ≤ ((min tH (H : ℤ) : ℤ) : ℚ) / (H : ℚ) →
      round ((H : ℚ) * r) ≤ (H : ℤ) := by
    intro r hr
    have hle : (H : ℚ) * r ≤ (H : ℚ) * (((min tH (H : ℤ) : ℤ) : ℚ) / (H : ℚ)) :=
      mul_le_mul_of_nonneg_left hr (le_of_lt hHq)
    have heq : (H : ℚ) * (((min tH (H : ℤ) : ℤ) : ℚ) / (H : ℚ)) =
        ((min tH (H : ℤ) : ℤ) : ℚ) := by
      field_simp
    have hfin : ((min tH (H : ℤ) : ℤ) : ℚ) ≤ (H : ℚ) := by
      exact_mod_cast min_le_right tH (H : ℤ)
    have h2 : (H : ℚ) * r ≤ (H : ℚ) := by
      calc (H : ℚ) * r ≤ _ := hle
        _ = _ := heq
        _ ≤ _ := hfin
    have h3 := roundMono h2
    rwa [round_natCast] at h3
  refine ⟨le_max_left 1 _, le_max_left 1 _, ?_, ?_⟩
  · refine max_le (by exact_mod_cast hW) (keyW _ (min_le_left _ _))
  · refine max_le (by exact_mod_cast hH) (keyH _ (min_le_right _ _))

/-- The loaders expose the page list of a well-formed unencrypted
buffer. -/
theorem pdfLibLoad_plain (b : PdfBytes) (ign : Bool)
    (hw : b.wellFormed = true) (he : b.encrypted = false) :
    pdfLibLoad b ign = some b.pages := by
  simp [pdfLibLoad, hw, he]

theorem pdfjsGetDocument_plain (b : PdfBytes)
    (hw : b.wellFormed = true) (he : b.encrypted = false) :
    pdfjsGetDocument b = some b.pages := by
  simp [pdfjsGetDocument, hw, he]

/-- With no corrupt page the split loop succeeds and yields one
single-page output document per source page, in order. -/
theorem splitLoop_ok :
    ∀ pgs : List Page, (∀ pg ∈ pgs, pg.corrupt = false) →
      splitLoop pgs = Except.ok (pgs.map (fun pg => [pg])) := by
  intro pgs h
  induction pgs with
  | nil => rfl
  | cons pg rest ih =>
    have hpg : pg.corrupt = false := h pg (List.mem_cons_self pg rest)
    have hrest : ∀ q ∈ rest, q.corrupt = false := fun q hq => h q (List.mem_cons_of_mem pg hq)
    simp [splitLoop, hpg, ih hrest]

/-- A corrupt page anywhere makes the split loop throw. -/
theorem splitLoop_fail :
    ∀ pgs : List Page, (∃ pg ∈ pgs, pg.corrupt = true) →
      splitLoop pgs = Except.error () := by
  intro pgs h
  induction pgs with
  | nil => obtain ⟨pg, hmem, _⟩ := h; cases hmem
  | cons pg rest ih =>
    obtain ⟨pg0, hmem, hcor⟩ := h
    by_cases hpg : pg.corrupt = true
    · simp [splitLoop, hpg]
    · have hne : pg0 ∈ rest := by
        rcases List.mem_cons.mp hmem with h1 | h1
        · exact absurd (h1 ▸ hcor) hpg
        · exact h1
      simp [splitLoop, Bool.eq_false_iff.mpr hpg, ih ⟨pg0, hne, hcor⟩]

/-- A corrupt page anywhere aborts the compress page loop with no
output value. -/
theorem compressPagesFrom_fail (maxW q : ℚ) (total : Nat) :
    ∀ (pgs : List Page) (p : Nat), (∃ pg ∈ pgs, pg.corrupt = true) →
      (compressPagesFrom maxW q total p pgs).2 = none := by
  intro pgs
  induction pgs with
  | nil => intro p h; obtain ⟨pg, hmem, _⟩ := h; cases hmem
  | cons pg rest ih =>
    intro p h
    obtain ⟨pg0, hmem, hcor⟩ := h
    by_cases hpg : pg.corrupt = true
    · simp [compressPagesFrom, renderPage, hpg]
    · have hne : pg0 ∈ rest := by
        rcases List.mem_cons.mp hmem with h1 | h1
        · exact absurd (h1 ▸ hcor) hpg
        · exact h1
      simp [compressPagesFrom, renderPage, Bool.eq_false_iff.mpr hpg,
            ih (p + 1) ⟨pg0, hne, hcor⟩]

/-- With no corrupt page the compress page loop renders every page in
order, at the dimensions of the scaled viewport. -/
theorem compressPagesFrom_ok (maxW q : ℚ) (total : Nat) :
    ∀ (pgs : List Page) (p : Nat), (∀ pg ∈ pgs, pg.corrupt = false) →
      (compressPagesFrom maxW q total p pgs).2 =
        some (pgs.map (fun pg =>
          ⟨round (pg.width * renderScale maxW pg),
           round (pg.height * renderScale maxW pg), q⟩)) := by
  intro pgs
  induction pgs with
  | nil => intro p _; rfl
  | cons pg rest ih =>
    intro p h
    have hpg : pg.corrupt = false := h pg (List.mem_cons_self pg rest)
    have hrest : ∀ q ∈ rest, q.corrupt = false := fun q hq => h q (List.mem_cons_of_mem pg hq)
    simp [compressPagesFrom, renderPage, hpg, ih (p + 1) hrest]

/-- The progress updates of the compress page loop are the consecutive
page numbers starting at the first page processed, each paired with the
total, one update per page entered; the run reaches the last page number
exactly when it produces an output value. -/
theorem compressPagesFrom_trace (maxW q : ℚ) (total : Nat) :
    ∀ (pgs : List Page) (p : Nat), ∃ m, m ≤ pgs.length ∧
      (compressPagesFrom maxW q total p pgs).1 =
        (List.range' p m).map (fun i => (i, total)) ∧
      (((compressPagesFrom maxW q total p pgs).2).isSome → m = pgs.length) := by
  intro pgs
  induction pgs with
  | nil => intro p; exact ⟨0, Nat.le_refl 0, rfl, fun _ => rfl⟩
  | cons pg rest ih =>
    intro p
    by_cases hpg : pg.corrupt = true
    · refine ⟨1, by simp, ?_, ?_⟩
      · simp [compressPagesFrom, renderPage, hpg, List.range']
      · intro hs
        rw [compressPagesFrom] at hs
        simp [renderPage, hpg] at hs
    · obtain ⟨m, hm, htr, hs⟩ := ih (p + 1)
      refine ⟨m + 1, by simpa using hm, ?_, ?_⟩
      · simp [compressPagesFrom, renderPage, Bool.eq_false_iff.mpr hpg, List.range'_succ, htr]
      · intro hsome
        rw [compressPagesFrom] at hsome
        simp [renderPage, Bool.eq_false_iff.mpr hpg] at hsome
        simp [hs hsome]

/-- With no corrupt page, copying all pages of a loaded document
succeeds and preserves the page list. -/
theorem copyAllPages_ok :
    ∀ pgs : List Page, (∀ pg ∈ pgs, pg.corrupt = false) →
      copyAllPages pgs = some pgs := by
  intro pgs h
  induction pgs with
  | nil => rfl
  | cons pg rest ih =>
    have hpg : pg.corrupt = false := h pg (List.mem_cons_self pg rest)
    have hrest : ∀ q ∈ rest, q.corrupt = false := fun q hq => h q (List.mem_cons_of_mem pg hq)
    simp [copyAllPages, hpg, ih hrest]

/-- A document that fails to decode anywhere in the list makes the
whole merge loop fail. -/
theorem mergeLoop_fail :
    ∀ items : List PdfBytes, (∃ it ∈ items, pdfLibLoad it false = none) →
      mergeLoop items = none := by
  intro items h
  induction items with
  | nil => obtain ⟨it, hmem, _⟩ := h; cases hmem
  | cons it rest ih =>
    obtain ⟨it0, hmem, hload⟩ := h
    rcases List.mem_cons.mp hmem with h1 | h1
    · subst h1
      simp [mergeLoop, hload]
    · rw [mergeLoop]
      have hrest := ih ⟨it0, h1, hload⟩
      cases hl : pdfLibLoad it false with
      | none => rfl
      | some pages =>
        cases hc : copyAllPages pages with
        | none => simp [hc]
        | some copied => simp [hc, hrest]

/-- C1, counterexample: the claim asserts a best-effort per-page policy
for split, with a 5-page document whose page 3 is corrupt yielding 4
successful page outputs plus one reported failure.  On the code the
whole split loop sits in a single try block and setSplitPages is only
reached after the loop: on doc5, whose third page of five is corrupt,
the failure is reported but splitPages stays null, so zero page outputs
are emitted, not four. -/
theorem split_no_best_effort_counterexample :
    (split doc5).splitPages = none ∧ (split doc5).error = some msgSplitFailed :=
  ⟨rfl, rfl⟩

/-- C1, amended: in split mode a rendering or copying failure on any
page aborts the whole run: the failure is reported through the error
state, and no page outputs are emitted to the caller, the pages
successfully split before the failure included (they are discarded with
the aborted loop). -/
theorem split_abort_on_page_failure (file : PdfBytes) (pages : List Page)
    (hl : pdfLibLoad file true = some pages)
    (hc : ∃ pg ∈ pages, pg.corrupt = true) :
    (split file).splitPages = none ∧ (split file).error = some msgSplitFailed := by
  have hsl := splitLoop_fail pages hc
  simp [split, hl, hsl]

theorem split_abort_on_page_failure_witness :
    (split doc5).error = some msgSplitFailed ∧ (split doc5).splitPages = none :=
  have h := split_abort_on_page_failure doc5 [okPage, okPage, badPage, okPage, okPage]
    rfl ⟨badPage, by simp, rfl⟩
  ⟨h.2, h.1⟩

/-- C2: in rasterCompress mode the first page that fails during
rendering aborts the whole run: the handler transitions to the error
state and no output document, not even a partial one with the pages
already rendered, is returned to the caller. -/
theorem compress_abort_on_render_failure (file : PdfBytes) (pages : List Page)
    (hl : pdfjsGetDocument file = some pages)
    (hc : ∃ pg ∈ pages, pg.corrupt = true) :
    (compress file).resultPages = none ∧
    (compress file).errorMsg = some msgCompressFailed := by
  have h2 := compressPagesFrom_fail 1400 (3 / 5) pages.length pages 1 hc
  simp [compress, compressViaCanvas, hl, h2]

theorem compress_abort_on_render_failure_witness :
    (compress docBad2).resultPages = none ∧
    (compress docBad2).errorMsg = some msgCompressFailed :=
  compress_abort_on_render_failure docBad2 [okPage, badPage] rfl ⟨badPage, by simp, rfl⟩

/-- C3: for every page rasterized by the compress pipeline the render
scale is min(1, targetMaxWidthPx / nativeWidth), the raster surface is
round(nativeWidth times scale) by round(nativeHeight times scale), and
a page no wider than the target keeps its integer pixel width
unchanged, never upscaled. -/
theorem renderPage_scale (maxW q : ℚ) (pg : Page)
    (hc : pg.corrupt = false) (hw : 0 < pg.width) :
    renderScale maxW pg = min 1 (maxW / pg.width) ∧
    renderPage maxW q pg =
      some ⟨round (pg.width * renderScale maxW pg),
            round (pg.height * renderScale maxW pg), q⟩ ∧
    (pg.width ≤ maxW → ∀ m : ℕ, pg.width = (m : ℚ) →
        round (pg.width * renderScale maxW pg) = (m : ℤ)) := by
  refine ⟨rfl, by simp [renderPage, hc], ?_⟩
  intro hle m hm
  have h1 : renderScale maxW pg = 1 := by
    unfold renderScale
    exact min_eq_left ((one_le_div hw).mpr hle)
  rw [h1, mul_one, hm, round_natCast]

theorem renderPage_scale_witness :
    renderScale 1400 page2000 = 7 / 10 ∧
    renderPage 1400 (3 / 5) page2000 = some ⟨1400, 1960, 3 / 5⟩ := by
  have h := renderPage_scale 1400 (3 / 5) page2000 rfl (by norm_num [page2000])
  have hs : renderScale 1400 page2000 = 7 / 10 := by
    rw [h.1]
    norm_num [page2000, min_def]
  refine ⟨hs, ?_⟩
  rw [h.2.1, hs]
  have h1 : page2000.width * (7 / 10 : ℚ) = 1400 := by norm_num [page2000]
  have h2 : page2000.height * (7 / 10 : ℚ) = 1960 := by norm_num [page2000]
  rw [h1, h2]
  norm_num

/-- C4: merging document A followed by document B in the caller order
produces one output document whose first pages are the pages of A in
their original order and whose remaining pages are the pages of B in
their original order. -/
theorem mergePDFs_order (a b : PdfBytes)
    (hwa : a.wellFormed = true) (hea : a.encrypted = false)
    (hwb : b.wellFormed = true) (heb : b.encrypted = false)
    (hca : ∀ pg ∈ a.pages, pg.corrupt = false)
    (hcb : ∀ pg ∈ b.pages, pg.corrupt = false)
    (hs : a.size + b.size ≤ MAX_SIZE_BYTES) :
    (mergePDFs [a, b]).mergedPages = some (a.pages ++ b.pages) ∧
    (a.pages ++ b.pages).take a.pages.length = a.pages ∧
    (a.pages ++ b.pages).drop a.pages.length = b.pages := by
  have hla := pdfLibLoad_plain a false hwa hea
  have hlb := pdfLibLoad_plain b false hwb heb
  have hml : mergeLoop [a, b] = some (a.pages ++ b.pages) := by
    simp [mergeLoop, hla, hlb, copyAllPages_ok a.pages hca, copyAllPages_ok b.pages hcb]
  have hguard : ¬ ([a, b].length < 2) := by simp
  have hsz : ¬ (MAX_SIZE_BYTES < a.size + b.size) := by omega
  refine ⟨?_, List.take_left a.pages b.pages, List.drop_left a.pages b.pages⟩
  simp [mergePDFs, hguard, hsz, hml]

theorem mergePDFs_order_witness :
    (mergePDFs [docA, docB]).mergedPages = some [okPage, page2000, pageB] := by
  have h := mergePDFs_order docA docB rfl rfl rfl rfl
    (by intro pg hpg; simp [docA] at hpg; rcases hpg with rfl | rfl <;> rfl)
    (by intro pg hpg; simp [docB] at hpg; rcases hpg with rfl; rfl)
    (by norm_num [docA, docB, MAX_SIZE_BYTES])
  exact h.1

/-- C5: in merge mode a decode failure of any input document aborts the
entire merge: no output document is returned, in particular no partial
merge of the documents processed before the failure. -/
theorem mergePDFs_abort_on_decode_failure (items : List PdfBytes)
    (h2 : 2 ≤ items.length)
    (hs : (items.map PdfBytes.size).sum ≤ MAX_SIZE_BYTES)
    (hf : ∃ it ∈ items, pdfLibLoad it false = none) :
    (mergePDFs items).mergedPages = none ∧
    (mergePDFs items).error = some msgMergeFailed := by
  have hml := mergeLoop_fail items hf
  have hguard : ¬ (items.length < 2) := by omega
  have hsz : ¬ (MAX_SIZE_BYTES < (items.map PdfBytes.size).sum) := by omega
  simp [mergePDFs, hguard, hsz, hml]

theorem mergePDFs_abort_on_decode_failure_witness :
    (mergePDFs [docA, brokenDoc]).mergedPages = none ∧
    (mergePDFs [docA, brokenDoc]).error = some msgMergeFailed :=
  mergePDFs_abort_on_decode_failure [docA, brokenDoc] (by simp)
    (by norm_num [docA, brokenDoc, MAX_SIZE_BYTES])
    ⟨brokenDoc, by simp, rfl⟩

/-- C6: for a well-formed N page input that processes without error,
split emits exactly N output documents of one page each, and
rasterCompress emits exactly one output document of exactly N pages; no
page is silently dropped. -/
theorem pageCount_roundTrip (file : PdfBytes)
    (hw : file.wellFormed = true) (he : file.encrypted = false)
    (hc : ∀ pg ∈ file.pages, pg.corrupt = false) :
    ((split file).splitPages).map List.length = some file.pages.length ∧
    (∀ outs ∈ (split file).splitPages, ∀ o ∈ outs, o.length = 1) ∧
    ((compress file).resultPages).map List.length = some file.pages.length := by
  have hsp : (split file).splitPages = some (file.pages.map (fun pg => [pg])) := by
    have hl := pdfLibLoad_plain file true hw he
    have hsl := splitLoop_ok file.pages hc
    simp [split, hl, hsl]
  have hcp : (compress file).resultPages =
      some (file.pages.map (fun pg =>
        ⟨round (pg.width * renderScale 1400 pg),
         round (pg.height * renderScale 1400 pg), 3 / 5⟩)) := by
    have hl := pdfjsGetDocument_plain file hw he
    have hok := compressPagesFrom_ok 1400 (3 / 5) file.pages.length file.pages 1 hc
    simp [compress, compressViaCanvas, hl, hok]
  refine ⟨?_, ?_, ?_⟩
  · rw [hsp]; simp
  · intro outs houts o ho
    rw [hsp, Option.mem_some_iff] at houts
    subst houts
    obtain ⟨pg, _, rfl⟩ := List.mem_map.mp ho
    rfl
  · rw [hcp]; simp

theorem pageCount_roundTrip_witness :
    ((split docA).splitPages).map List.length = some 2 ∧
    ((compress docA).resultPages).map List.length = some 2 := by
  have h := pageCount_roundTrip docA rfl rfl
    (by intro pg hpg; simp [docA] at hpg; rcases hpg with rfl | rfl <;> rfl)
  exact ⟨h.1, h.2.2⟩

/-- The observable state of the compress handler after a successful
load: the trace is the initial update followed by the per-page updates
of the page loop, and the result is the output of the page loop. -/
theorem compress_run (file : PdfBytes) (pages : List Page)
    (hl : pdfjsGetDocument file = some pages) :
    (compress file).trace =
      (0, pages.length) :: (compressPagesFrom 1400 (3 / 5) pages.length 1 pages).1 ∧
    (compress file).resultPages = (compressPagesFrom 1400 (3 / 5) pages.length 1 pages).2 := by
  cases hr : (compressPagesFrom 1400 (3 / 5) pages.length 1 pages).2 with
  | none => simp [compress, compressViaCanvas, hl, hr]
  | some rs => simp [compress, compressViaCanvas, hl, hr]

/-- C7: across a rasterCompress run the sequence of current values
reported to the progress observer is non-decreasing, and on a run that
completes the value N is reported exactly once and the observer is
invoked once per page plus once on entering the loop. -/
theorem compress_progress_monotone (file : PdfBytes) (pages : List Page)
    (hl : pdfjsGetDocument file = some pages) :
    List.Chain' (fun a b => a ≤ b) ((compress file).trace.map Prod.fst) ∧
    (((compress file).resultPages).isSome = true →
      ((compress file).trace.map Prod.fst).count pages.length = 1 ∧
      (compress file).trace.length = pages.length + 1) := by
  obtain ⟨htr, hres⟩ := compress_run file pages hl
  obtain ⟨m, hm, htrace, hslen⟩ := compressPagesFrom_trace 1400 (3 / 5) pages.length pages 1
  have hfst : (compress file).trace.map Prod.fst = 0 :: List.range' 1 m := by
    rw [htr, htrace]
    simp [List.map_map, Function.comp_def]
  constructor
  · rw [hfst]
    cases m with
    | zero => simp
    | succ k =>
      have h1 : List.Chain' (fun a b : Nat => a ≤ b) (List.range' 1 (k + 1)) :=
        (List.pairwise_le_range' 1 (k + 1)).chain'
      rw [List.range'_succ]
      exact List.chain'_cons.mpr ⟨Nat.zero_le 1, by rw [← List.range'_succ]; exact h1⟩
  · intro hsome
    rw [hres] at hsome
    have hmn : m = pages.length := hslen hsome
    constructor
    · rw [hfst, hmn]
      rcases Nat.eq_zero_or_pos pages.length with hz | hpos
      · rw [hz]; simp
      · have hne : pages.length ≠ 0 := by omega
        have hmem : pages.length ∈ List.range' 1 pages.length := by
          rw [List.mem_range'_1]
          omega
        have hnd : (List.range' 1 pages.length).Nodup := List.nodup_range' 1 pages.length
        simp [List.count_cons, List.count_eq_one_of_mem hnd hmem, hne]
    · rw [htr, htrace, hmn]
      simp

theorem compress_progress_monotone_witness :
    List.Chain' (fun a b : Nat => a ≤ b) ((compress docA).trace.map Prod.fst) ∧
    ((compress docA).trace.map Prod.fst).count 2 = 1 ∧
    (compress docA).trace.length = 3 := by
  have h := compress_progress_monotone docA docA.pages rfl
  have hsome : ((compress docA).resultPages).isSome = true := rfl
  exact ⟨h.1, (h.2 hsome).1, (h.2 hsome).2⟩

/-- C8, counterexample: the claim asserts that in every pipeline mode an
encrypted document that ignore-encryption handling can open is decoded
rather than rejected.  On the code the merge load omits the
ignore-encryption option: encDoc is encrypted and bypassable, and
indeed split decodes it, but the same document aborts the merge with a
decode failure and no output. -/
theorem merge_rejects_bypassable_encrypted_counterexample :
    ((split encDoc).splitPages).isSome = true ∧
    (mergePDFs [encDoc, encDoc]).mergedPages = none ∧
    (mergePDFs [encDoc, encDoc]).error = some msgMergeFailed :=
  ⟨rfl, rfl, rfl⟩

/-- C8, amended: only the split pipeline opens its input with best
effort ignore-encryption semantics, so an encrypted document whose
encryption that handling can bypass is decoded there; the merge
pipeline loads without the ignore-encryption option, so in merge mode
every encrypted input fails to decode and aborts the run, even one that
ignore-encryption handling could open. -/
theorem decode_error_policy (b : PdfBytes)
    (hw : b.wellFormed = true) (he : b.encrypted = true) (hb : b.bypassable = true)
    (hc : ∀ pg ∈ b.pages, pg.corrupt = false)
    (hs : b.size + b.size ≤ MAX_SIZE_BYTES) :
    ((split b).splitPages).isSome = true ∧
    (mergePDFs [b, b]).mergedPages = none ∧
    (mergePDFs [b, b]).error = some msgMergeFailed := by
  refine ⟨?_, ?_⟩
  · have hl : pdfLibLoad b true = some b.pages := by simp [pdfLibLoad, hw, he, hb]
    have hsl := splitLoop_ok b.pages hc
    simp [split, hl, hsl]
  · have hf : pdfLibLoad b false = none := by simp [pdfLibLoad, he]
    have hml := mergeLoop_fail [b, b] ⟨b, by simp, hf⟩
    have hguard : ¬ ([b, b].length < 2) := by simp
    have hsz : ¬ (MAX_SIZE_BYTES < b.size + b.size) := by omega
    simp [mergePDFs, hguard, hsz, hml]

theorem decode_error_policy_witness :
    ((split encDoc).splitPages).isSome = true ∧
    (mergePDFs [encDoc, encDoc]).error = some msgMergeFailed :=
  have h := decode_error_policy encDoc rfl rfl rfl
    (by intro pg hpg; simp [encDoc] at hpg; rcases hpg with rfl; rfl)
    (by norm_num [encDoc, MAX_SIZE_BYTES])
  ⟨h.1, h.2.2⟩

/-- C9, counterexample: the claim asserts that a cancellation flag is
checked between pages and that an abandoned run stops at the next page
boundary without producing an output.  The cancellation-aware
orchestrator of the spec, cancelled at the boundary before page 2 of a
healthy two page document, stops after one progress update with no
output; the implemented loop on the same input disagrees with it,
processing both pages and producing an output value unconditionally. -/
theorem cancellation_not_checked_counterexample :
    specCancelRun (fun p => Nat.ble 2 p) 1400 (3 / 5) 2 1 twoPages ≠
      compressPagesFrom 1400 (3 / 5) 2 1 twoPages ∧
    ((compressPagesFrom 1400 (3 / 5) 2 1 twoPages).2).isSome = true := by
  refine ⟨?_, rfl⟩
  intro h
  exact absurd (congrArg (fun r => r.1.length) h) (by decide)

/-- C9, amended: the implemented page loop consults no cancellation
flag: its behaviour coincides, on every input, with the
cancellation-aware orchestrator of the spec run under the schedule that
never cancels, so once started a run processes every page and commits
its output or error regardless of the caller abandoning the result
handle. -/
theorem compress_loop_ignores_cancellation (maxW q : ℚ) (total p : Nat) (pgs : List Page) :
    compressPagesFrom maxW q total p pgs = specCancelRun (fun _ => false) maxW q total p pgs := by
  induction pgs generalizing p with
  | nil => rfl
  | cons pg rest ih =>
    cases hr : renderPage maxW q pg with
    | none => simp [compressPagesFrom, specCancelRun, hr]
    | some rp => simp [compressPagesFrom, specCancelRun, hr, ih]

/-- C10: for every processed bitmap the image-reduce output dimensions
are at least 1 by 1, never exceed the source dimensions, and are
produced by the clamping and scaling tail, which applies one common
scale, the minimum of the clamped width and height ratios, to both
dimensions. -/
theorem handleUpload_bounds (bmp : Bitmap) (cfg : Option (ℤ × ℤ)) (cw ch : ℤ)
    (hw : 0 < bmp.width) (hh : 0 < bmp.height) :
    1 ≤ (handleUpload bmp cfg cw ch).1 ∧ 1 ≤ (handleUpload bmp cfg cw ch).2 ∧
    (handleUpload bmp cfg cw ch).1 ≤ (bmp.width : ℤ) ∧
    (handleUpload bmp cfg cw ch).2 ≤ (bmp.height : ℤ) ∧
    ∃ tW tH : ℤ, handleUpload bmp cfg cw ch = resizeCore bmp.width bmp.height tW tH := by
  have hsplit : ∃ tW tH : ℤ,
      handleUpload bmp cfg cw ch = resizeCore bmp.width bmp.height tW tH := by
    unfold handleUpload
    rcases cfg with _ | c
    · dsimp only
      split
      · exact ⟨_, _, rfl⟩
      · exact ⟨_, _, rfl⟩
    · dsimp only
      split
      · exact ⟨_, _, rfl⟩
      · exact ⟨_, _, rfl⟩
  obtain ⟨tW, tH, heq⟩ := hsplit
  have hb := resizeCore_bounds bmp.width bmp.height tW tH hw hh
  rw [heq]
  exact ⟨hb.1, hb.2.1, hb.2.2.1, hb.2.2.2, tW, tH, rfl⟩

theorem handleUpload_bounds_witness :
    handleUpload ⟨350, 450⟩ none 0 0 = (175, 225) ∧
    1 ≤ (handleUpload ⟨350, 450⟩ none 0 0).1 ∧
    (handleUpload ⟨350, 450⟩ none 0 0).1 ≤ 350 := by
  have h := handleUpload_bounds ⟨350, 450⟩ none 0 0 (by norm_num) (by norm_num)
  refine ⟨?_, h.1, by exact_mod_cast h.2.2.1⟩
  unfold handleUpload resizeCore
  norm_num [min_def]

end PdfToolkit
